import Mathlib

/-!
Shallow embedding of the Data-Preprocessing-Pipeline repository.

Source files:
* `DataPreprocessingPipeline.py` — `data_preprocessing_pipeline`,
  `handle_missing_values`, `handle_outliers_iqr`.
* `Preprocessing-api/process.py` — the FastAPI endpoint
  `csv_to_excel_with_description`.

Tabular data is modelled column-wise: a numeric column is a
`List (Option K)` over a linear ordered field `K` (`none` is a missing
cell / NaN), a categorical column is a `List (Option String)`.
The pipeline itself is instantiated at `K = ℝ` because the
standard-scaler stage divides by `Real.sqrt` of the variance.
-/

/-- Non-missing values of a column, in row order (pandas drops NaN before
quantile/mean computations). -/
def valsOf {K : Type} (col : List (Option K)) : List K := col.filterMap id

/-- Linear-interpolation value at fractional position `h` into the sorted
list `s`, as computed by `numpy.percentile` / `pandas.Series.quantile`
with the default `interpolation='linear'`:
`s[i] + (h - i) * (s[i+1] - s[i])` with `i = floor h`. -/
def interpAt {K : Type} [LinearOrderedField K] [FloorRing K] (s : List K) (h : K) : K :=
  s.getD (Int.floor h).toNat 0 +
    (h - ((Int.floor h).toNat : K)) *
      (s.getD ((Int.floor h).toNat + 1) 0 - s.getD (Int.floor h).toNat 0)

/-- `Series.quantile(q)` on the (already NaN-free) value list: sort the
values and linearly interpolate at position `q * (n - 1)`. -/
def quantileOf {K : Type} [LinearOrderedField K] [FloorRing K] (vals : List K) (q : K) : K :=
  interpAt (List.insertionSort (· ≤ ·) vals) (q * ((vals.length : K) - 1))

/-- `Series.mean()` over the non-missing values (sum divided by count). -/
def meanOf {K : Type} [LinearOrderedField K] (vals : List K) : K :=
  vals.sum / (vals.length : K)

/-- Population variance (`ddof = 0`, as used by sklearn's
`StandardScaler`) of a value list. -/
def varOf {K : Type} [LinearOrderedField K] (vals : List K) : K :=
  (vals.map (fun x => (x - meanOf vals) ^ 2)).sum / (vals.length : K)

/-- `data[feature].quantile(q)` for an `Option`-valued column. -/
def quantileO {K : Type} [LinearOrderedField K] [FloorRing K] (col : List (Option K)) (q : K) : K :=
  quantileOf (valsOf col) q

/-- `data[feature].mean()` for an `Option`-valued column. -/
def colMeanO {K : Type} [LinearOrderedField K] (col : List (Option K)) : K :=
  meanOf (valsOf col)

/-- Column population variance for an `Option`-valued column. -/
def colVarO {K : Type} [LinearOrderedField K] (col : List (Option K)) : K :=
  varOf (valsOf col)

/-- `lower_bound = Q1 - 1.5 * IQR` of the pipeline's outlier stage
(`DataPreprocessingPipeline.py` lines 29-32). -/
def lowerBoundO {K : Type} [LinearOrderedField K] [FloorRing K] (col : List (Option K)) : K :=
  quantileO col (1/4) - 3/2 * (quantileO col (3/4) - quantileO col (1/4))

/-- `upper_bound = Q3 + 1.5 * IQR` of the pipeline's outlier stage
(`DataPreprocessingPipeline.py` lines 29-33). -/
def upperBoundO {K : Type} [LinearOrderedField K] [FloorRing K] (col : List (Option K)) : K :=
  quantileO col (3/4) + 3/2 * (quantileO col (3/4) - quantileO col (1/4))

/-- One iteration of the pipeline's outlier loop (lines 28-35):
`np.where((x < lower_bound) | (x > upper_bound), mean, x)` applied to one
numeric column.  NaN cells stay NaN (both comparisons are false on NaN and
`np.where` then keeps the original entry). -/
def replaceOutliersIQR {K : Type} [LinearOrderedField K] [FloorRing K]
    (col : List (Option K)) : List (Option K) :=
  col.map (Option.map (fun x =>
    if x < lowerBoundO col ∨ upperBoundO col < x then colMeanO col else x))

/-! ### KNN imputation (`handle_missing_values`, lines 45-48)

`KNNImputer().fit_transform` with the library defaults: `n_neighbors = 5`,
uniform weights, `nan_euclidean` distance.  Present cells are returned
unchanged; a missing cell `(i, j)` is filled with the mean of the `j`-values
of the (up to) five rows closest to row `i` among the rows where feature `j`
is observed; if no such row exists the observed column mean is used. -/

/-- Cell of the column-wise numeric table at row `i`, column `j`
(`none` if missing or out of range). -/
def cellAt {K : Type} (cols : List (String × List (Option K))) (i j : ℕ) : Option K :=
  match cols[j]? with
  | some c => (c.2[i]?).getD none
  | none => none

/-- Number of rows of a column-wise table. -/
def nRowsOf {K : Type} (cols : List (String × List (Option K))) : ℕ :=
  (cols.map (fun c => c.2.length)).foldr max 0

/-- Squared `nan_euclidean` distance between rows `i` and `r`:
`(#features / #shared) * Σ_shared (x_ik - x_rk)²`, `none` when the rows
share no observed feature.  (Only the ordering of distances matters for
neighbor selection, so the square root is never taken.) -/
def sqDistRows {K : Type} [LinearOrderedField K]
    (cols : List (String × List (Option K))) (i r : ℕ) : Option K :=
  let shared := (List.range cols.length).filter
    (fun j => (cellAt cols i j).isSome && (cellAt cols r j).isSome)
  if shared.length = 0 then none
  else some (((cols.length : K) / (shared.length : K)) *
    (shared.map (fun j => ((cellAt cols i j).getD 0 - (cellAt cols r j).getD 0) ^ 2)).sum)

/-- Ordering of candidate donors by (squared) distance. -/
def donorLe {K : Type} [LinearOrderedField K] (p q : K × K) : Prop := p.2 ≤ q.2

instance {K : Type} [LinearOrderedField K] : DecidableRel (donorLe (K := K)) :=
  fun p q => inferInstanceAs (Decidable (p.2 ≤ q.2))

/-- KNN estimate for the missing cell `(i, j)`: mean of the `j`-values of
the five nearest rows that have feature `j` observed; the observed column
mean when there is no donor at all. -/
def knnEstimate {K : Type} [LinearOrderedField K]
    (cols : List (String × List (Option K))) (i j : ℕ) : Option K :=
  let donors := (List.range (nRowsOf cols)).filterMap (fun r =>
    if r = i then none
    else match cellAt cols r j, sqDistRows cols i r with
      | some v, some d => some (v, d)
      | _, _ => none)
  let chosen := (List.insertionSort donorLe donors).take 5
  match chosen with
  | [] =>
    match cols[j]? with
    | some c => if (valsOf c.2).length = 0 then none else some (meanOf (valsOf c.2))
    | none => none
  | _ => some (meanOf (chosen.map (fun p => p.1)))

/-- Imputation of one column (column index `j`), scanning rows from
index `i` on: present cells are kept, missing cells are KNN-estimated. -/
def imputeColFrom {K : Type} [LinearOrderedField K]
    (cols : List (String × List (Option K))) (j : ℕ) :
    ℕ → List (Option K) → List (Option K)
  | _, [] => []
  | i, cell :: rest =>
    (match cell with
     | some v => some v
     | none => knnEstimate cols i j) :: imputeColFrom cols j (i + 1) rest

/-- Imputation of the columns of `todo` (whose first element has column
index `j` in the full table `cols`). -/
def imputeCols {K : Type} [LinearOrderedField K]
    (cols : List (String × List (Option K))) :
    ℕ → List (String × List (Option K)) → List (String × List (Option K))
  | _, [] => []
  | j, c :: rest => (c.1, imputeColFrom cols j 0 c.2) :: imputeCols cols (j + 1) rest

/-- The imputed table `KNNImputer().fit_transform` produces on a valid
numeric sub-table (at least one feature, at least one sample, no feature
entirely missing): every missing cell KNN-estimated, jointly over all
numeric columns. -/
def knnImputeTable {K : Type} [LinearOrderedField K]
    (cols : List (String × List (Option K))) : List (String × List (Option K)) :=
  imputeCols cols 0 cols

/-- `handle_missing_values` (lines 45-48).  The call
`pd.DataFrame(imputer.fit_transform(data), columns=data.columns)` raises —
modelled as `Except.error` — in three degenerate cases: `fit_transform`
demands at least one feature and at least one sample (`ValueError`
otherwise), and it drops features with no observed value, so rebuilding
the frame with the original column names then raises a shape-mismatch
`ValueError`.  (The library's message texts include concrete shapes; the
strings here are fixed stand-ins.)  Otherwise the imputed table is
returned. -/
def handle_missing_values {K : Type} [LinearOrderedField K]
    (cols : List (String × List (Option K))) :
    Except String (List (String × List (Option K))) :=
  if cols.length = 0 then
    Except.error "ValueError: Found array with 0 feature(s) while a minimum of 1 is required"
  else if nRowsOf cols = 0 then
    Except.error "ValueError: Found array with 0 sample(s) while a minimum of 1 is required"
  else if cols.any (fun c => (valsOf c.2).isEmpty) then
    Except.error "ValueError: Shape of passed values does not match the indices"
  else Except.ok (knnImputeTable cols)

/-! ### Categorical mode fill (line 22) -/

/-- Code-point lexicographic comparison of strings as character lists —
the order Python/pandas uses when sorting the tied modes of an object
column. -/
def charListLe : List Char → List Char → Bool
  | [], _ => true
  | _ :: _, [] => false
  | a :: as, b :: bs => if a < b then true else if b < a then false else charListLe as bs

/-- The ordering `charListLe` as a relation on strings. -/
def strLeP (a b : String) : Prop := charListLe a.data b.data = true

instance : DecidableRel strLeP := fun a b => inferInstanceAs (Decidable (_ = true))

/-- `Series.mode()` of a categorical column: the distinct non-missing
values of maximal frequency, sorted ascending. -/
def seriesMode (col : List (Option String)) : List String :=
  let vals := col.filterMap id
  let maxCnt := (vals.map (fun v => vals.count v)).foldr max 0
  List.insertionSort strLeP (vals.dedup.filter (fun v => vals.count v == maxCnt))

/-- The fill value used for a categorical column by
`data[categorical_features].fillna(data[categorical_features].mode().iloc[0])`:
the first (least) mode, or `none` (a NaN entry of the mode row, which
`fillna` ignores) for a column with no observed value. -/
def modeFill (col : List (Option String)) : Option String := (seriesMode col).head?

/-- Line 22 of the pipeline: fill missing categorical cells with the first
row of the mode table.  Returns `none` — modelling the `IndexError` raised
by `.iloc[0]` — exactly when the mode table has no rows, i.e. when there is
no categorical column or no categorical column has any observed value. -/
def catFillStep (cols : List (String × List (Option String))) :
    Option (List (String × List (Option String))) :=
  if cols.all (fun c => (seriesMode c.2).isEmpty) then none
  else some (cols.map (fun c => (c.1, c.2.map (fun cell =>
    match cell with
    | some v => some v
    | none => modeFill c.2))))

/-! ### Standard scaling (lines 39-40) and the full pipeline -/

/-- `StandardScaler` scale for one column: the square root of the
population variance, with an exact zero replaced by `1` (sklearn's
`_handle_zeros_in_scale`, so that constant columns map to `0` rather than
dividing by zero). -/
noncomputable def scaleOf (col : List (Option ℝ)) : ℝ :=
  if Real.sqrt (colVarO col) = 0 then 1 else Real.sqrt (colVarO col)

/-- `StandardScaler().fit_transform` on one column: subtract the column
mean, divide by the column scale; NaN cells stay NaN. -/
noncomputable def standardizeCol (col : List (Option ℝ)) : List (Option ℝ) :=
  col.map (Option.map (fun x => (x - colMeanO col) / scaleOf col))

/-- A dataset: named numeric columns and named categorical columns (the
column classification `select_dtypes` computes at pipeline entry). -/
structure DataFrame (K : Type) where
  numeric : List (String × List (Option K))
  cat : List (String × List (Option String))

/-- Numeric sub-table after imputation and outlier replacement — the
values the scaler of line 40 is fitted on, for every run on which the
imputation of line 19 does not raise (when it raises the pipeline never
reaches line 40). -/
noncomputable def preScaleNumeric (df : DataFrame ℝ) : List (String × List (Option ℝ)) :=
  (knnImputeTable df.numeric).map (fun c => (c.1, replaceOutliersIQR c.2))

/-- `data_preprocessing_pipeline` (lines 12-42): KNN-impute the numeric
columns (line 19 — its `ValueError`s propagate, pre-empting everything
later), mode-fill the categorical columns (line 22 — raising the
`IndexError`, modelled as `Except.error`, when the mode table is empty),
replace IQR outliers by the column mean, and standardize the numeric
columns. -/
noncomputable def data_preprocessing_pipeline (df : DataFrame ℝ) :
    Except String (DataFrame ℝ) :=
  match handle_missing_values df.numeric with
  | Except.error e => Except.error e
  | Except.ok nums =>
    match catFillStep df.cat with
    | none => Except.error "IndexError: single positional indexer is out-of-bounds"
    | some cats =>
      Except.ok { numeric := (nums.map (fun c => (c.1, replaceOutliersIQR c.2))).map
                    (fun c => (c.1, standardizeCol c.2)),
                  cat := cats }

/-! ### Row-filtering outlier handler (`handle_outliers_iqr`, lines 51-59) -/

/-- Values of column `j` of a row-major numeric table. -/
def colValsT {K : Type} (t : List (List K)) (j : ℕ) : List K :=
  t.filterMap (fun r => r[j]?)

/-- `lower_bound[j] = Q1[j] - threshold * IQR[j]` (lines 52-56). -/
def colLowerT {K : Type} [LinearOrderedField K] [FloorRing K]
    (t : List (List K)) (th : K) (j : ℕ) : K :=
  quantileOf (colValsT t j) (1/4) -
    th * (quantileOf (colValsT t j) (3/4) - quantileOf (colValsT t j) (1/4))

/-- `upper_bound[j] = Q3[j] + threshold * IQR[j]` (lines 52-57). -/
def colUpperT {K : Type} [LinearOrderedField K] [FloorRing K]
    (t : List (List K)) (th : K) (j : ℕ) : K :=
  quantileOf (colValsT t j) (3/4) +
    th * (quantileOf (colValsT t j) (3/4) - quantileOf (colValsT t j) (1/4))

/-- `((data < lower_bound) | (data > upper_bound)).any(axis=1)` for one
row. -/
def rowHasOutlier {K : Type} [LinearOrderedField K] [FloorRing K]
    (t : List (List K)) (th : K) (r : List K) : Bool :=
  (List.range r.length).any (fun j =>
    decide (r.getD j 0 < colLowerT t th j) || decide (colUpperT t th j < r.getD j 0))

/-- `handle_outliers_iqr` (lines 51-59): keep exactly the rows with no
out-of-bound value in any column (the repository calls it with the default
`threshold=1.5`, i.e. `th = 3/2`). -/
def handle_outliers_iqr {K : Type} [LinearOrderedField K] [FloorRing K]
    (t : List (List K)) (th : K) : List (List K) :=
  t.filter (fun r => ! rowHasOutlier t th r)

/-! ### The conversion endpoint (`process.py`, lines 148-183) -/

/-- Python's `str.endswith` on the underlying character lists. -/
def endsWithStr (s suffix : String) : Bool := decide (suffix.data.IsSuffix s.data)

/-- Python's `filename.rsplit('.', 1)[0]`: everything before the last dot
(the whole string when there is no dot). -/
def beforeLastDot (s : String) : String :=
  match s.data.reverse.dropWhile (fun c => c != '.') with
  | [] => s
  | _ :: rest => String.mk rest.reverse

/-- HTTP outcome of the endpoint: a streaming response (status, MIME type,
`Content-Disposition` header) or an `HTTPException` (status, detail). -/
inductive ApiResult : Type
  | response (status : ℕ) (mediaType : String) (contentDisposition : String)
  | httpError (status : ℕ) (detail : String)
deriving DecidableEq

/-- `csv_to_excel_with_description` (lines 148-183).  `processing` is the
outcome of the body of the `try:` block — reading and decoding the upload,
`pd.read_csv`, and the four `processManager` sheet writers (that module is
not part of the repository snapshot; any exception it raises surfaces here
as `Except.error` with the exception message).  A failing filename check
raises 400 before the `try:` block; any exception inside it is caught by
the single outermost `except` and mapped to 500. -/
def csv_to_excel_with_description (filename : String)
    (processing : Except String Unit) : ApiResult :=
  if ! endsWithStr filename ".csv" then
    ApiResult.httpError 400 "Only CSV files are allowed"
  else
    match processing with
    | Except.error e => ApiResult.httpError 500 ("An error occurred: " ++ e)
    | Except.ok _ =>
      ApiResult.response 200
        "application/vnd.openxmlformats-officedocument.spreadsheetml.sheet"
        ("attachment; filename=" ++ beforeLastDot filename ++
          "_with_summary_missing_values_and_outliers.xlsx")

/-! ### Evaluation and identity lemmas -/

/-- Evaluation rule for `quantileOf`: supply the sorted list, the floor of
the interpolation position, and the interpolated value. -/
theorem quantileOf_eval {K : Type} [LinearOrderedField K] [FloorRing K]
    (vals s : List K) (q x : K) (i : ℕ)
    (hs : List.insertionSort (· ≤ ·) vals = s)
    (hf : Int.floor (q * ((vals.length : K) - 1)) = (i : ℤ))
    (hx : s.getD i 0 + (q * ((vals.length : K) - 1) - (i : K)) *
      (s.getD (i + 1) 0 - s.getD i 0) = x) :
    quantileOf vals q = x := by
  rw [quantileOf, interpAt, hs, hf, Int.toNat_natCast, hx]

/-- A present cell contributes its value to `valsOf`. -/
theorem mem_valsOf {K : Type} {col : List (Option K)} {x : K}
    (h : some x ∈ col) : x ∈ valsOf col :=
  List.mem_filterMap.mpr ⟨some x, h, rfl⟩

/-- Column imputation does not touch a column without missing cells. -/
theorem imputeColFrom_id {K : Type} [LinearOrderedField K]
    (cols : List (String × List (Option K))) (j : ℕ) (col : List (Option K))
    (h : ∀ cell ∈ col, cell ≠ none) :
    ∀ i, imputeColFrom cols j i col = col := by
  induction col with
  | nil => intro i; rfl
  | cons cell rest ih =>
    intro i
    have hcell : cell ≠ none := h cell (List.mem_cons_self cell rest)
    have hrest : ∀ c ∈ rest, c ≠ none := fun c hc => h c (List.mem_cons_of_mem _ hc)
    cases cell with
    | none => exact absurd rfl hcell
    | some v => simpa [imputeColFrom] using ih hrest (i + 1)

/-- Table imputation does not touch a table without missing cells. -/
theorem imputeCols_id {K : Type} [LinearOrderedField K]
    (cols todo : List (String × List (Option K)))
    (h : ∀ c ∈ todo, ∀ cell ∈ c.2, cell ≠ none) :
    ∀ j, imputeCols cols j todo = todo := by
  induction todo with
  | nil => intro j; rfl
  | cons c rest ih =>
    intro j
    have hc := h c (List.mem_cons_self c rest)
    have hrest : ∀ c' ∈ rest, ∀ cell ∈ c'.2, cell ≠ none :=
      fun c' hc' => h c' (List.mem_cons_of_mem _ hc')
    simp [imputeCols, imputeColFrom_id cols j c.2 hc 0, ih hrest (j + 1)]

/-- The imputed table is the original table when no cell is missing. -/
theorem knnImputeTable_id {K : Type} [LinearOrderedField K]
    (cols : List (String × List (Option K)))
    (h : ∀ c ∈ cols, ∀ cell ∈ c.2, cell ≠ none) :
    knnImputeTable cols = cols :=
  imputeCols_id cols cols h 0

/-- Every member of a list of naturals is at most its `foldr max 0`. -/
theorem le_foldr_max (l : List ℕ) : ∀ x ∈ l, x ≤ l.foldr max 0 := by
  induction l with
  | nil => intro x hx; cases hx
  | cons a as ih =>
    intro x hx
    rcases List.mem_cons.mp hx with rfl | hx'
    · exact le_max_left _ _
    · exact le_trans (ih x hx') (le_max_right _ _)

/-- On a non-degenerate numeric sub-table — at least one column and no
column without observed values — the imputation of line 19 does not raise
and returns the imputed table. -/
theorem handle_missing_values_succeeds {K : Type} [LinearOrderedField K]
    (cols : List (String × List (Option K)))
    (hne : cols ≠ []) (hv : ∀ c ∈ cols, valsOf c.2 ≠ []) :
    handle_missing_values cols = Except.ok (knnImputeTable cols) := by
  have h1 : ¬cols.length = 0 := fun h0 => hne (List.length_eq_zero.mp h0)
  have h2 : ¬nRowsOf cols = 0 := by
    obtain ⟨c, hc⟩ := List.exists_mem_of_ne_nil cols hne
    have hcne : c.2 ≠ [] := by
      intro he
      exact hv c hc (by rw [valsOf, he]; rfl)
    have hlen : 0 < c.2.length := List.length_pos.mpr hcne
    have hmem : c.2.length ∈ cols.map (fun c => c.2.length) := List.mem_map_of_mem _ hc
    have hle := le_foldr_max (cols.map (fun c => c.2.length)) c.2.length hmem
    rw [nRowsOf]
    omega
  have h3 : ¬(cols.any (fun c => (valsOf c.2).isEmpty)) = true := by
    rw [List.any_eq_true]
    rintro ⟨c, hc, hcempty⟩
    exact hv c hc (List.isEmpty_iff.mp hcempty)
  rw [handle_missing_values, if_neg h1, if_neg h2, if_neg h3]

/-- Conversely, a successful line 19 forces the non-degeneracy conditions
and determines the returned table. -/
theorem handle_missing_values_ok_elim {K : Type} [LinearOrderedField K]
    (cols nums : List (String × List (Option K)))
    (h : handle_missing_values cols = Except.ok nums) :
    nums = knnImputeTable cols ∧ cols ≠ [] ∧ ∀ c ∈ cols, valsOf c.2 ≠ [] := by
  rw [handle_missing_values] at h
  split_ifs at h with h1 h2 h3
  cases h
  exact ⟨rfl, fun he => h1 (by rw [he]; rfl), fun c hc hcv =>
    h3 (List.any_eq_true.mpr ⟨c, hc, by rw [hcv]; rfl⟩)⟩

/-- `handle_missing_values` succeeds and is the identity on a
non-degenerate numeric table with no missing cell. -/
theorem handle_missing_values_ok {K : Type} [LinearOrderedField K]
    (cols : List (String × List (Option K)))
    (h : ∀ c ∈ cols, ∀ cell ∈ c.2, cell ≠ none)
    (hne : cols ≠ []) (hv : ∀ c ∈ cols, valsOf c.2 ≠ []) :
    handle_missing_values cols = Except.ok cols := by
  rw [handle_missing_values_succeeds cols hne hv, knnImputeTable_id cols h]

/-- The outlier stage is the identity on a column whose observed values
all lie inside the IQR bounds. -/
theorem replaceOutliersIQR_id {K : Type} [LinearOrderedField K] [FloorRing K]
    (col : List (Option K))
    (h : ∀ x ∈ valsOf col, lowerBoundO col ≤ x ∧ x ≤ upperBoundO col) :
    replaceOutliersIQR col = col := by
  rw [replaceOutliersIQR]
  have : ∀ cell ∈ col, Option.map (fun x =>
      if x < lowerBoundO col ∨ upperBoundO col < x then colMeanO col else x) cell = cell := by
    intro cell hcell
    cases cell with
    | none => rfl
    | some x =>
      have hx := h x (mem_valsOf hcell)
      simp [Option.map, if_neg, not_or, not_lt, hx.1, hx.2]
  rw [List.map_congr_left this, List.map_id']

/-- The categorical fill step is the identity on columns with no missing
cell, whenever it does not raise. -/
theorem catFillStep_id (cols : List (String × List (Option String)))
    (h : ∀ c ∈ cols, ∀ cell ∈ c.2, cell ≠ none)
    (out : List (String × List (Option String)))
    (hout : catFillStep cols = some out) : out = cols := by
  by_cases hall : (cols.all fun c => (seriesMode c.2).isEmpty) = true
  · rw [catFillStep, if_pos hall] at hout
    exact absurd hout (by simp)
  · rw [catFillStep, if_neg hall] at hout
    have hmap : ∀ c ∈ cols, (c.1, c.2.map (fun cell =>
        match cell with
        | some v => some v
        | none => modeFill c.2)) = c := by
      intro c hc
      have hcells : ∀ cell ∈ c.2, (match cell with
          | some v => some v
          | none => modeFill c.2) = cell := by
        intro cell hcell
        cases cell with
        | none => exact absurd rfl (h c hc none hcell)
        | some v => rfl
      rw [List.map_congr_left hcells, List.map_id']
    rw [List.map_congr_left hmap, List.map_id'] at hout
    exact (Option.some_inj.mp hout).symm

/-! ### Concrete evaluations for the spec's outlier examples -/

/-- Observed values of the spec's example column `[1, 2, 3, 4, 100]`. -/
theorem exCol_vals :
    valsOf ([some 1, some 2, some 3, some 4, some 100] : List (Option ℚ)) = [1, 2, 3, 4, 100] := by
  norm_num [valsOf, List.filterMap_cons]

/-- `Q1 = 2` on the example column. -/
theorem exCol_q1 :
    quantileO ([some 1, some 2, some 3, some 4, some 100] : List (Option ℚ)) (1/4) = 2 := by
  rw [quantileO, exCol_vals]
  exact quantileOf_eval _ [1, 2, 3, 4, 100] _ _ 1
    (by norm_num [List.insertionSort, List.orderedInsert]) (by norm_num)
    (by norm_num [List.getD])

/-- `Q3 = 4` on the example column. -/
theorem exCol_q3 :
    quantileO ([some 1, some 2, some 3, some 4, some 100] : List (Option ℚ)) (3/4) = 4 := by
  rw [quantileO, exCol_vals]
  exact quantileOf_eval _ [1, 2, 3, 4, 100] _ _ 3
    (by norm_num [List.insertionSort, List.orderedInsert]) (by norm_num)
    (by norm_num [List.getD])

/-- `lower_bound = -1` on the example column. -/
theorem exCol_lb :
    lowerBoundO ([some 1, some 2, some 3, some 4, some 100] : List (Option ℚ)) = -1 := by
  rw [lowerBoundO, exCol_q1, exCol_q3]; norm_num

/-- `upper_bound = 7` on the example column. -/
theorem exCol_ub :
    upperBoundO ([some 1, some 2, some 3, some 4, some 100] : List (Option ℚ)) = 7 := by
  rw [upperBoundO, exCol_q1, exCol_q3]; norm_num

/-- Column mean `22` on the example column. -/
theorem exCol_mean :
    colMeanO ([some 1, some 2, some 3, some 4, some 100] : List (Option ℚ)) = 22 := by
  rw [colMeanO, exCol_vals]; norm_num [meanOf]

/-- C1: in the pipeline's outlier-replacement stage every out-of-bound
value of a numeric column is replaced by the column's mean over all values
(outliers included), in-bound values are unchanged, and on the column
`[1, 2, 3, 4, 100]` one gets `Q1 = 2`, `Q3 = 4`, `IQR = 2`,
bounds `[-1, 7]`, and `100` replaced by the mean `22` with `1, 2, 3, 4`
unchanged. -/
theorem C1_outlier_replacement_mean_substitution :
    (∀ (col : List (Option ℚ)), replaceOutliersIQR col = col.map (Option.map (fun x =>
        if x < lowerBoundO col ∨ upperBoundO col < x then colMeanO col else x)))
    ∧ quantileO ([some 1, some 2, some 3, some 4, some 100] : List (Option ℚ)) (1/4) = 2
    ∧ quantileO ([some 1, some 2, some 3, some 4, some 100] : List (Option ℚ)) (3/4) = 4
    ∧ quantileO ([some 1, some 2, some 3, some 4, some 100] : List (Option ℚ)) (3/4) -
        quantileO ([some 1, some 2, some 3, some 4, some 100] : List (Option ℚ)) (1/4) = 2
    ∧ lowerBoundO ([some 1, some 2, some 3, some 4, some 100] : List (Option ℚ)) = -1
    ∧ upperBoundO ([some 1, some 2, some 3, some 4, some 100] : List (Option ℚ)) = 7
    ∧ colMeanO ([some 1, some 2, some 3, some 4, some 100] : List (Option ℚ)) = 22
    ∧ replaceOutliersIQR ([some 1, some 2, some 3, some 4, some 100] : List (Option ℚ)) =
        [some 1, some 2, some 3, some 4, some 22] := by
  refine ⟨fun col => rfl, exCol_q1, exCol_q3, by rw [exCol_q1, exCol_q3]; norm_num,
    exCol_lb, exCol_ub, exCol_mean, ?_⟩
  rw [replaceOutliersIQR, exCol_lb, exCol_ub, exCol_mean]
  norm_num

/-! ### Concrete evaluations for the row-filtering example table -/

/-- Column 0 of the example table. -/
theorem exT_col0 :
    colValsT ([[1,1],[2,2],[3,3],[4,50],[5,5]] : List (List ℚ)) 0 = [1,2,3,4,5] := by
  norm_num [colValsT, List.filterMap_cons]

/-- Column 1 of the example table. -/
theorem exT_col1 :
    colValsT ([[1,1],[2,2],[3,3],[4,50],[5,5]] : List (List ℚ)) 1 = [1,2,3,50,5] := by
  norm_num [colValsT, List.filterMap_cons]

/-- Lower bound of column 0 at the default threshold. -/
theorem exT_lb0 :
    colLowerT ([[1,1],[2,2],[3,3],[4,50],[5,5]] : List (List ℚ)) (3/2) 0 = -1 := by
  rw [colLowerT, exT_col0,
    quantileOf_eval [1,2,3,4,5] [1,2,3,4,5] (1/4) 2 1
      (by norm_num [List.insertionSort, List.orderedInsert]) (by norm_num)
      (by norm_num [List.getD]),
    quantileOf_eval [1,2,3,4,5] [1,2,3,4,5] (3/4) 4 3
      (by norm_num [List.insertionSort, List.orderedInsert]) (by norm_num)
      (by norm_num [List.getD])]
  norm_num

/-- Upper bound of column 0 at the default threshold. -/
theorem exT_ub0 :
    colUpperT ([[1,1],[2,2],[3,3],[4,50],[5,5]] : List (List ℚ)) (3/2) 0 = 7 := by
  rw [colUpperT, exT_col0,
    quantileOf_eval [1,2,3,4,5] [1,2,3,4,5] (1/4) 2 1
      (by norm_num [List.insertionSort, List.orderedInsert]) (by norm_num)
      (by norm_num [List.getD]),
    quantileOf_eval [1,2,3,4,5] [1,2,3,4,5] (3/4) 4 3
      (by norm_num [List.insertionSort, List.orderedInsert]) (by norm_num)
      (by norm_num [List.getD])]
  norm_num

/-- Lower bound of column 1 at the default threshold. -/
theorem exT_lb1 :
    colLowerT ([[1,1],[2,2],[3,3],[4,50],[5,5]] : List (List ℚ)) (3/2) 1 = -5/2 := by
  rw [colLowerT, exT_col1,
    quantileOf_eval [1,2,3,50,5] [1,2,3,5,50] (1/4) 2 1
      (by norm_num [List.insertionSort, List.orderedInsert]) (by norm_num)
      (by norm_num [List.getD]),
    quantileOf_eval [1,2,3,50,5] [1,2,3,5,50] (3/4) 5 3
      (by norm_num [List.insertionSort, List.orderedInsert]) (by norm_num)
      (by norm_num [List.getD])]
  norm_num

/-- Upper bound of column 1 at the default threshold. -/
theorem exT_ub1 :
    colUpperT ([[1,1],[2,2],[3,3],[4,50],[5,5]] : List (List ℚ)) (3/2) 1 = 19/2 := by
  rw [colUpperT, exT_col1,
    quantileOf_eval [1,2,3,50,5] [1,2,3,5,50] (1/4) 2 1
      (by norm_num [List.insertionSort, List.orderedInsert]) (by norm_num)
      (by norm_num [List.getD]),
    quantileOf_eval [1,2,3,50,5] [1,2,3,5,50] (3/4) 5 3
      (by norm_num [List.insertionSort, List.orderedInsert]) (by norm_num)
      (by norm_num [List.getD])]
  norm_num

/-- Row `[1,1]` of the example table has no out-of-bound entry. -/
theorem exT_row11 :
    rowHasOutlier ([[1,1],[2,2],[3,3],[4,50],[5,5]] : List (List ℚ)) (3/2) [1,1] = false := by
  rw [rowHasOutlier]
  simp only [List.length_cons, List.length_nil, show List.range 2 = [0, 1] from rfl,
    List.any_cons, List.any_nil, Bool.or_eq_false_iff, decide_eq_false_iff_not, not_lt,
    exT_lb0, exT_ub0, exT_lb1, exT_ub1, List.getD]
  norm_num

/-- Row `[2,2]` of the example table has no out-of-bound entry. -/
theorem exT_row22 :
    rowHasOutlier ([[1,1],[2,2],[3,3],[4,50],[5,5]] : List (List ℚ)) (3/2) [2,2] = false := by
  rw [rowHasOutlier]
  simp only [List.length_cons, List.length_nil, show List.range 2 = [0, 1] from rfl,
    List.any_cons, List.any_nil, Bool.or_eq_false_iff, decide_eq_false_iff_not, not_lt,
    exT_lb0, exT_ub0, exT_lb1, exT_ub1, List.getD]
  norm_num

/-- Row `[3,3]` of the example table has no out-of-bound entry. -/
theorem exT_row33 :
    rowHasOutlier ([[1,1],[2,2],[3,3],[4,50],[5,5]] : List (List ℚ)) (3/2) [3,3] = false := by
  rw [rowHasOutlier]
  simp only [List.length_cons, List.length_nil, show List.range 2 = [0, 1] from rfl,
    List.any_cons, List.any_nil, Bool.or_eq_false_iff, decide_eq_false_iff_not, not_lt,
    exT_lb0, exT_ub0, exT_lb1, exT_ub1, List.getD]
  norm_num

/-- Row `[5,5]` of the example table has no out-of-bound entry. -/
theorem exT_row55 :
    rowHasOutlier ([[1,1],[2,2],[3,3],[4,50],[5,5]] : List (List ℚ)) (3/2) [5,5] = false := by
  rw [rowHasOutlier]
  simp only [List.length_cons, List.length_nil, show List.range 2 = [0, 1] from rfl,
    List.any_cons, List.any_nil, Bool.or_eq_false_iff, decide_eq_false_iff_not, not_lt,
    exT_lb0, exT_ub0, exT_lb1, exT_ub1, List.getD]
  norm_num

/-- Row `[4,50]` of the example table has `50` above column 1's upper
bound `19/2`. -/
theorem exT_row450 :
    rowHasOutlier ([[1,1],[2,2],[3,3],[4,50],[5,5]] : List (List ℚ)) (3/2) [4,50] = true := by
  rw [rowHasOutlier]
  simp only [List.any_eq_true]
  refine ⟨1, by simp, ?_⟩
  simp only [Bool.or_eq_true, decide_eq_true_eq, exT_lb1, exT_ub1, List.getD]
  norm_num

/-- C2: `handle_outliers_iqr` keeps exactly the rows whose every column
value lies inside that column's `[Q1 - th*IQR, Q3 + th*IQR]` bounds — a
row survives iff none of its entries is out of bounds — and on the example
table (whose row index 3 is `[4, 50]`, with `50` outside column 1's bounds
`[-5/2, 19/2]` while its other entry `4` is inside column 0's bounds
`[-1, 7]`) exactly that row is removed. -/
theorem C2_row_filtering_iqr :
    (∀ {K : Type} [inst : LinearOrderedField K] [inst2 : FloorRing K]
      (t : List (List K)) (th : K) (r : List K),
      r ∈ handle_outliers_iqr t th ↔
        r ∈ t ∧ ∀ j < r.length,
          colLowerT t th j ≤ r.getD j 0 ∧ r.getD j 0 ≤ colUpperT t th j)
    ∧ handle_outliers_iqr ([[1,1],[2,2],[3,3],[4,50],[5,5]] : List (List ℚ)) (3/2) =
        [[1,1],[2,2],[3,3],[5,5]] := by
  constructor
  · intro K inst inst2 t th r
    rw [handle_outliers_iqr, List.mem_filter]
    simp only [Bool.not_eq_true', rowHasOutlier, List.any_eq_false, List.mem_range,
      Bool.or_eq_true, decide_eq_true_eq, not_or, not_lt]
  · rw [handle_outliers_iqr]
    simp only [List.filter_cons, List.filter_nil, exT_row11, exT_row22, exT_row33,
      exT_row450, exT_row55, Bool.not_false, Bool.not_true, if_true, if_false]
    simp

/-- Witness for C2: on the example table, row `[5,5]` (all entries inside
both columns' bounds) survives the filter. -/
theorem C2_row_filtering_iqr_witness :
    ([5,5] : List ℚ) ∈ handle_outliers_iqr ([[1,1],[2,2],[3,3],[4,50],[5,5]] : List (List ℚ)) (3/2) := by
  refine (C2_row_filtering_iqr.1 [[1,1],[2,2],[3,3],[4,50],[5,5]] (3/2) [5,5]).mpr
    ⟨by simp, ?_⟩
  intro j hj
  simp only [List.length_cons, List.length_nil] at hj
  interval_cases j
  · rw [exT_lb0, exT_ub0]; norm_num [List.getD]
  · rw [exT_lb1, exT_ub1]; norm_num [List.getD]

/-- C10: the row-filtering outlier handler only removes rows — for every
table and threshold its result is a sublist of the input: surviving rows
keep their exact values and their original relative order, and no row is
rewritten or added. -/
theorem C10_outlier_filter_is_sublist {K : Type} [LinearOrderedField K] [FloorRing K]
    (t : List (List K)) (th : K) :
    List.Sublist (handle_outliers_iqr t th) t :=
  List.filter_sublist t

/-! ### Properties of the mode ordering -/

/-- `charListLe` is reflexive. -/
theorem charListLe_refl (a : List Char) : charListLe a a = true := by
  induction a with
  | nil => rfl
  | cons x xs ih => simp [charListLe, lt_irrefl, ih]

/-- `charListLe` is total. -/
theorem charListLe_total (a : List Char) : ∀ b, charListLe a b = true ∨ charListLe b a = true := by
  induction a with
  | nil => intro b; left; rfl
  | cons x xs ih =>
    intro b
    cases b with
    | nil => right; rfl
    | cons y ys =>
      rcases lt_trichotomy x y with hxy | hxy | hxy
      · left; simp [charListLe, hxy]
      · subst hxy
        rcases ih ys with h | h
        · left; simp [charListLe, lt_irrefl, h]
        · right; simp [charListLe, lt_irrefl, h]
      · right; simp [charListLe, hxy]

/-- `charListLe` is transitive. -/
theorem charListLe_trans (a : List Char) :
    ∀ b c, charListLe a b = true → charListLe b c = true → charListLe a c = true := by
  induction a with
  | nil => intro b c _ _; rfl
  | cons x xs ih =>
    intro b c hab hbc
    cases b with
    | nil => simp [charListLe] at hab
    | cons y ys =>
      cases c with
      | nil => simp [charListLe] at hbc
      | cons z zs =>
        rcases lt_trichotomy x y with hxy | hxy | hxy
        · rcases lt_trichotomy y z with hyz | hyz | hyz
          · have hxz : x < z := lt_trans hxy hyz
            simp [charListLe, hxz]
          · subst hyz
            simp [charListLe, hxy]
          · simp [charListLe, hyz, asymm hyz] at hbc
        · subst hxy
          simp only [charListLe, lt_irrefl, if_neg, if_false] at hab
          rcases lt_trichotomy x z with hxz | hxz | hxz
          · simp [charListLe, hxz]
          · subst hxz
            simp only [charListLe, lt_irrefl, if_neg, if_false] at hbc ⊢
            exact ih ys zs hab hbc
          · simp [charListLe, hxz, asymm hxz] at hbc
        · simp [charListLe, hxy, asymm hxy] at hab

instance : IsTotal String strLeP :=
  ⟨fun a b => charListLe_total a.data b.data⟩

instance : IsTrans String strLeP :=
  ⟨fun a b c => charListLe_trans a.data b.data c.data⟩

instance : IsRefl String strLeP := ⟨fun a => charListLe_refl a.data⟩

/-- Characterization of the first mode: `(seriesMode col).head? = some m`
implies that `m` is an observed value of maximal frequency and is
`charListLe`-least among the values of maximal frequency. -/
theorem modeFill_spec (col : List (Option String)) (m : String)
    (h : (seriesMode col).head? = some m) :
    m ∈ col.filterMap id ∧
      (∀ v ∈ col.filterMap id, (col.filterMap id).count v ≤ (col.filterMap id).count m) ∧
      (∀ v ∈ col.filterMap id, (col.filterMap id).count v = (col.filterMap id).count m →
        strLeP m v) := by
  classical
  set vals := col.filterMap id with hvals
  set M := (vals.map (fun v => vals.count v)).foldr max 0 with hM
  have hsorted : List.Sorted strLeP (seriesMode col) := List.sorted_insertionSort _ _
  have hperm : List.Perm (seriesMode col) (vals.dedup.filter (fun v => vals.count v == M)) :=
    List.perm_insertionSort _ _
  obtain ⟨rest, hrest⟩ : ∃ rest, seriesMode col = m :: rest := by
    cases hsm : seriesMode col with
    | nil => rw [hsm] at h; cases h
    | cons a as =>
      rw [hsm] at h
      simp only [List.head?_cons, Option.some.injEq] at h
      exact ⟨as, by rw [h]⟩
  have hmem : m ∈ vals.dedup.filter (fun v => vals.count v == M) :=
    hperm.mem_iff.mp (hrest ▸ List.mem_cons_self m rest)
  have hmdedup : m ∈ vals.dedup := (List.mem_filter.mp hmem).1
  have hmcnt : vals.count m = M := by
    have h2 := (List.mem_filter.mp hmem).2
    simpa using h2
  refine ⟨List.mem_dedup.mp hmdedup, ?_, ?_⟩
  · intro v hv
    have : vals.count v ∈ vals.map (fun v => vals.count v) := List.mem_map_of_mem _ hv
    exact hmcnt ▸ le_foldr_max _ _ this
  · intro v hv hcnt
    have hvfilter : v ∈ vals.dedup.filter (fun v => vals.count v == M) := by
      refine List.mem_filter.mpr ⟨List.mem_dedup.mpr hv, ?_⟩
      simp [hcnt, hmcnt]
    have hvmem : v ∈ seriesMode col := hperm.mem_iff.mpr hvfilter
    rw [hrest] at hvmem hsorted
    rcases List.mem_cons.mp hvmem with hvm | hvrest
    · rw [hvm]
      show charListLe m.data m.data = true
      exact charListLe_refl _
    · exact List.rel_of_sorted_cons hsorted v hvrest

/-- C3: the categorical stage fills every missing cell of a categorical
column with that column's mode — an observed value of maximal frequency,
ties broken by the least value in the library's sort order — leaves
non-missing cells unchanged, and fills `["a","a","b",None]` with `"a"`. -/
theorem C3_categorical_mode_fill :
    (∀ (cols : List (String × List (Option String))) out, catFillStep cols = some out →
      out = cols.map (fun c => (c.1, c.2.map (fun cell =>
        match cell with
        | some v => some v
        | none => modeFill c.2))))
    ∧ (∀ (col : List (Option String)) (m : String), modeFill col = some m →
        m ∈ col.filterMap id ∧
        (∀ v ∈ col.filterMap id, (col.filterMap id).count v ≤ (col.filterMap id).count m) ∧
        (∀ v ∈ col.filterMap id, (col.filterMap id).count v = (col.filterMap id).count m →
          strLeP m v))
    ∧ catFillStep [("c", [some "a", some "a", some "b", none])] =
        some [("c", [some "a", some "a", some "b", some "a"])] := by
  refine ⟨?_, ?_, by decide⟩
  · intro cols out hout
    by_cases hall : (cols.all fun c => (seriesMode c.2).isEmpty) = true
    · rw [catFillStep, if_pos hall] at hout; cases hout
    · rw [catFillStep, if_neg hall] at hout
      exact (Option.some_inj.mp hout).symm
  · intro col m h
    exact modeFill_spec col m h

/-- Witness for C3: the fill equation applied to the spec's concrete
column, and `"a"` is an observed value of it. -/
theorem C3_categorical_mode_fill_witness :
    [("c", [some "a", some "a", some "b", some "a"])] =
      [("c", [some "a", some "a", some "b", none])].map (fun c => (c.1, c.2.map (fun cell =>
        match cell with
        | some v => some v
        | none => modeFill c.2))) ∧
    "a" ∈ ([some "a", some "a", some "b", none] : List (Option String)).filterMap id :=
  ⟨C3_categorical_mode_fill.1 _ _ (by decide),
   (C3_categorical_mode_fill.2.1 [some "a", some "a", some "b", none] "a" (by decide)).1⟩

/-- C7: the endpoint rejects every non-`.csv` filename with 400 before the
processing outcome can matter, and answers every successfully processed
`.csv` upload with 200, the spreadsheet MIME type, and a
`Content-Disposition` whose filename is the original base name plus
`_with_summary_missing_values_and_outliers.xlsx`; concretely `report.txt`
is rejected and `sales.csv` yields
`sales_with_summary_missing_values_and_outliers.xlsx`. -/
theorem C7_endpoint_filename_contract :
    (∀ (fn : String) (proc : Except String Unit), endsWithStr fn ".csv" = false →
      csv_to_excel_with_description fn proc =
        ApiResult.httpError 400 "Only CSV files are allowed")
    ∧ (∀ (fn : String), endsWithStr fn ".csv" = true →
      csv_to_excel_with_description fn (Except.ok ()) = ApiResult.response 200
        "application/vnd.openxmlformats-officedocument.spreadsheetml.sheet"
        ("attachment; filename=" ++ beforeLastDot fn ++
          "_with_summary_missing_values_and_outliers.xlsx"))
    ∧ csv_to_excel_with_description "report.txt" (Except.ok ()) =
        ApiResult.httpError 400 "Only CSV files are allowed"
    ∧ csv_to_excel_with_description "sales.csv" (Except.ok ()) = ApiResult.response 200
        "application/vnd.openxmlformats-officedocument.spreadsheetml.sheet"
        "attachment; filename=sales_with_summary_missing_values_and_outliers.xlsx" := by
  refine ⟨?_, ?_, by decide, by decide⟩
  · intro fn proc h
    simp [csv_to_excel_with_description, h]
  · intro fn h
    simp [csv_to_excel_with_description, h]

/-- Witness for C7: the 400 branch at `report.txt` and the 200 branch at
`data.csv`, obtained from the general conjuncts. -/
theorem C7_endpoint_filename_contract_witness :
    csv_to_excel_with_description "report.txt" (Except.error "never read") =
      ApiResult.httpError 400 "Only CSV files are allowed" ∧
    csv_to_excel_with_description "data.csv" (Except.ok ()) = ApiResult.response 200
      "application/vnd.openxmlformats-officedocument.spreadsheetml.sheet"
      ("attachment; filename=" ++ beforeLastDot "data.csv" ++
        "_with_summary_missing_values_and_outliers.xlsx") :=
  ⟨C7_endpoint_filename_contract.1 "report.txt" (Except.error "never read") (by decide),
   C7_endpoint_filename_contract.2.1 "data.csv" (by decide)⟩

/-- C8: once the filename check has passed, any exception from the
processing body is caught by the single outermost handler and mapped to a
500 response whose detail contains the raw exception message; the result
is an error value, not a (partial) spreadsheet response. -/
theorem C8_endpoint_exception_to_500 :
    (∀ (fn e : String), endsWithStr fn ".csv" = true →
      csv_to_excel_with_description fn (Except.error e) =
        ApiResult.httpError 500 ("An error occurred: " ++ e))
    ∧ csv_to_excel_with_description "sales.csv" (Except.error "bad utf-8") =
        ApiResult.httpError 500 "An error occurred: bad utf-8" := by
  refine ⟨?_, by decide⟩
  intro fn e h
  simp [csv_to_excel_with_description, h]

/-- Witness for C8: a decoding failure on `data.csv` surfaces as 500 with
the exception message in the detail. -/
theorem C8_endpoint_exception_to_500_witness :
    csv_to_excel_with_description "data.csv" (Except.error "boom") =
      ApiResult.httpError 500 ("An error occurred: " ++ "boom") :=
  C8_endpoint_exception_to_500.1 "data.csv" "boom" (by decide)

/-- Counterexample to C9 as stated: on the dataset with no columns at all
the categorical mode table is empty, yet the pipeline fails at the
imputation of line 19 — `KNNImputer().fit_transform` on a table with zero
features raises a `ValueError` — and never reaches the categorical fill,
so no `IndexError` about row 0 of the mode table is raised. -/
theorem C9_empty_mode_table_counterexample :
    DataFrame.cat (⟨[], []⟩ : DataFrame ℝ) = [] ∧
    data_preprocessing_pipeline (⟨[], []⟩ : DataFrame ℝ) =
      Except.error "ValueError: Found array with 0 feature(s) while a minimum of 1 is required" ∧
    data_preprocessing_pipeline (⟨[], []⟩ : DataFrame ℝ) ≠
      Except.error "IndexError: single positional indexer is out-of-bounds" := by
  have hrun : data_preprocessing_pipeline (⟨[], []⟩ : DataFrame ℝ) =
      Except.error "ValueError: Found array with 0 feature(s) while a minimum of 1 is required" :=
    rfl
  refine ⟨rfl, hrun, ?_⟩
  rw [hrun]
  intro he
  injection he with hs
  exact absurd hs (by decide)

/-- C9 (amended): when the categorical mode table is empty — no
categorical column at all, or every categorical column entirely missing —
and the imputation of line 19 itself succeeds (at least one numeric
column, none of them entirely missing), the pipeline raises the
`IndexError` of `.iloc[0]` on the empty mode frame instead of returning a
cleaned dataset.  (Without the imputation proviso the claim fails:
`C9_empty_mode_table_counterexample`.) -/
theorem C9_empty_mode_table_raises (df : DataFrame ℝ)
    (hne : df.numeric ≠ []) (hv : ∀ c ∈ df.numeric, valsOf c.2 ≠ [])
    (h : df.cat = [] ∨ ∀ c ∈ df.cat, ∀ cell ∈ c.2, cell = none) :
    data_preprocessing_pipeline df =
      Except.error "IndexError: single positional indexer is out-of-bounds" := by
  have hall : (df.cat.all fun c => (seriesMode c.2).isEmpty) = true := by
    rcases h with h | h
    · rw [h]; rfl
    · rw [List.all_eq_true]
      intro c hc
      have hnil : c.2.filterMap id = [] :=
        List.filterMap_eq_nil_iff.mpr (fun cell hcell => by simpa using h c hc cell hcell)
      simp [seriesMode, hnil, List.insertionSort]
  have hnone : catFillStep df.cat = none := by rw [catFillStep, if_pos hall]
  simp [data_preprocessing_pipeline, handle_missing_values_succeeds df.numeric hne hv, hnone]

/-- Witness for C9 (amended): a dataset with one observed numeric column
and no categorical column makes the pipeline raise the `IndexError`. -/
theorem C9_empty_mode_table_raises_witness :
    data_preprocessing_pipeline ⟨[("x", [some 1])], []⟩ =
      Except.error "IndexError: single positional indexer is out-of-bounds" :=
  C9_empty_mode_table_raises ⟨[("x", [some 1])], []⟩ (by simp)
    (by
      intro c hc
      simp only [List.mem_singleton] at hc
      subst hc
      simp [valsOf])
    (Or.inl rfl)

/-! ### Affine equivariance of the column statistics -/

/-- `valsOf` commutes with mapping a function over the present cells. -/
theorem valsOf_map {K : Type} (col : List (Option K)) (f : K → K) :
    valsOf (col.map (Option.map f)) = (valsOf col).map f := by
  rw [valsOf, valsOf, List.filterMap_map, List.map_filterMap]
  rfl

/-- Sum of an affinely mapped list. -/
theorem sum_map_affine {K : Type} [LinearOrderedField K] (a b : K) (l : List K) :
    (l.map (fun x => a * x + b)).sum = a * l.sum + b * (l.length : K) := by
  induction l with
  | nil => simp
  | cons x xs ih =>
    simp only [List.map_cons, List.sum_cons, List.length_cons, ih]
    push_cast
    ring

/-- Mean of an affinely mapped list. -/
theorem meanOf_affine {K : Type} [LinearOrderedField K] (a b : K) (l : List K)
    (hl : l ≠ []) : meanOf (l.map (fun x => a * x + b)) = a * meanOf l + b := by
  have hn : (l.length : K) ≠ 0 := by
    have hpos : 0 < l.length := List.length_pos.mpr hl
    exact_mod_cast hpos.ne'
  rw [meanOf, meanOf, List.length_map, sum_map_affine]
  field_simp

/-- Population variance of an affinely mapped list. -/
theorem varOf_affine {K : Type} [LinearOrderedField K] (a b : K) (l : List K)
    (hl : l ≠ []) : varOf (l.map (fun x => a * x + b)) = a ^ 2 * varOf l := by
  rw [varOf, varOf, meanOf_affine a b l hl, List.length_map, List.map_map]
  have hmap : (l.map ((fun y => (y - (a * meanOf l + b)) ^ 2) ∘ (fun x => a * x + b))) =
      l.map (fun x => a ^ 2 * (x - meanOf l) ^ 2) :=
    List.map_congr_left (fun x _hx => by simp only [Function.comp]; ring)
  rw [hmap, List.sum_map_mul_left, mul_div_assoc]

/-- Variance is nonnegative. -/
theorem varOf_nonneg {K : Type} [LinearOrderedField K] (l : List K) : 0 ≤ varOf l := by
  rw [varOf]
  apply div_nonneg
  · exact List.sum_nonneg (fun x hx => by
      obtain ⟨y, _hy, rfl⟩ := List.mem_map.mp hx
      positivity)
  · positivity

/-- In a list of zero variance every element equals the mean. -/
theorem varOf_eq_zero_all_mean {K : Type} [LinearOrderedField K] (l : List K)
    (hl : l ≠ []) (hv : varOf l = 0) : ∀ x ∈ l, x = meanOf l := by
  have hn : (0 : K) < (l.length : K) := by
    exact_mod_cast Nat.cast_pos.mpr (List.length_pos.mpr hl)
  have hsum : (l.map (fun x => (x - meanOf l) ^ 2)).sum = 0 := by
    have := hv
    rw [varOf, div_eq_zero_iff] at this
    rcases this with h | h
    · exact h
    · exact absurd h hn.ne'
  have hall : ∀ y ∈ l.map (fun x => (x - meanOf l) ^ 2), y = 0 := by
    intro y hy
    have hnn : ∀ z ∈ l.map (fun x => (x - meanOf l) ^ 2), 0 ≤ z := by
      intro z hz
      obtain ⟨w, _hw, rfl⟩ := List.mem_map.mp hz
      positivity
    by_contra hne
    have hypos : 0 < y := lt_of_le_of_ne (hnn y hy) (Ne.symm hne)
    have hrest : 0 < (l.map (fun x => (x - meanOf l) ^ 2)).sum := by
      calc 0 < y := hypos
      _ ≤ (l.map (fun x => (x - meanOf l) ^ 2)).sum := List.single_le_sum hnn y hy
    exact absurd hsum hrest.ne'
  intro x hx
  have := hall ((x - meanOf l) ^ 2) (List.mem_map_of_mem _ hx)
  have hzero : x - meanOf l = 0 := by
    exact pow_eq_zero_iff (n := 2) (by norm_num) |>.mp this
  linarith

/-- Sorting commutes with a strictly increasing affine map. -/
theorem insertionSort_map_affine {K : Type} [LinearOrderedField K] (a b : K)
    (ha : 0 < a) (l : List K) :
    List.insertionSort (· ≤ ·) (l.map (fun x => a * x + b)) =
      (List.insertionSort (· ≤ ·) l).map (fun x => a * x + b) := by
  haveI : IsAntisymm K (· ≤ ·) := ⟨fun _ _ h1 h2 => le_antisymm h1 h2⟩
  refine List.eq_of_perm_of_sorted (r := (· ≤ ·)) ?_ ?_ ?_
  · exact (List.perm_insertionSort _ _).trans ((List.perm_insertionSort (· ≤ ·) l).symm.map _)
  · exact List.sorted_insertionSort _ _
  · exact List.Pairwise.map _
      (fun x y hxy => add_le_add_right (mul_le_mul_of_nonneg_left hxy ha.le) b)
      (List.sorted_insertionSort (· ≤ ·) l)

/-- The linear-interpolation quantile commutes with a strictly increasing
affine map. -/
theorem quantileOf_affine {K : Type} [LinearOrderedField K] [FloorRing K] (a b q : K)
    (ha : 0 < a) (l : List K) (hl : l ≠ []) (hq0 : 0 ≤ q) (hq1 : q ≤ 1) :
    quantileOf (l.map (fun x => a * x + b)) q = a * quantileOf l q + b := by
  rw [quantileOf, quantileOf, insertionSort_map_affine a b ha l, List.length_map]
  set s := List.insertionSort (· ≤ ·) l with hs
  set p := q * ((l.length : K) - 1) with hp
  have hslen : s.length = l.length := List.length_insertionSort _ _
  have hn : 1 ≤ l.length := List.length_pos.mpr hl
  have hn1 : (1 : K) ≤ (l.length : K) := by exact_mod_cast hn
  have hp0 : 0 ≤ p := mul_nonneg hq0 (by linarith)
  have hpn : p ≤ (l.length : K) - 1 := by
    calc p ≤ 1 * ((l.length : K) - 1) := mul_le_mul_of_nonneg_right hq1 (by linarith)
      _ = (l.length : K) - 1 := one_mul _
  have hfl0 : 0 ≤ Int.floor p := Int.floor_nonneg.mpr hp0
  set i := (Int.floor p).toNat with hi
  have hiK : (i : K) ≤ p := by
    have hicast : ((i : ℕ) : ℤ) = Int.floor p := by rw [hi, Int.toNat_of_nonneg hfl0]
    calc (i : K) = ((Int.floor p : ℤ) : K) := by exact_mod_cast congrArg Int.cast hicast
      _ ≤ p := Int.floor_le p
  have hilt : i < s.length := by
    rw [hslen]
    have hcast : (i : K) < (l.length : K) := lt_of_le_of_lt (le_trans hiK hpn) (by linarith)
    exact_mod_cast hcast
  rw [interpAt, interpAt, ← hi]
  by_cases hg : p - (i : K) = 0
  · rw [hg]
    simp only [zero_mul, add_zero]
    rw [List.getD_eq_getElem _ _ (by simpa using hilt), List.getD_eq_getElem _ _ hilt,
      List.getElem_map]
  · have hi1 : i + 1 < s.length := by
      rw [hslen]
      have hstrict : (i : K) < p := lt_of_le_of_ne hiK (fun he => hg (by rw [← he, sub_self]))
      have hcast : (i : K) + 1 < (l.length : K) := by
        have : (i : K) < (l.length : K) - 1 := lt_of_lt_of_le hstrict hpn
        linarith
      have hcast2 : ((i + 1 : ℕ) : K) < (l.length : K) := by push_cast; linarith
      exact_mod_cast hcast2
    rw [List.getD_eq_getElem _ _ (by simpa using hilt),
      List.getD_eq_getElem _ _ (by simpa using hi1),
      List.getD_eq_getElem _ _ hilt, List.getD_eq_getElem _ _ hi1,
      List.getElem_map, List.getElem_map]
    ring

/-- No observed value of the column is outside the pipeline's IQR bounds. -/
def colNoOutlier {K : Type} [LinearOrderedField K] [FloorRing K]
    (col : List (Option K)) : Prop :=
  ∀ x ∈ valsOf col, lowerBoundO col ≤ x ∧ x ≤ upperBoundO col

/-- The lower IQR bound commutes with a strictly increasing affine map. -/
theorem lowerBoundO_affine {K : Type} [LinearOrderedField K] [FloorRing K] (a b : K)
    (ha : 0 < a) (col : List (Option K)) (hv : valsOf col ≠ []) :
    lowerBoundO (col.map (Option.map (fun x => a * x + b))) = a * lowerBoundO col + b := by
  rw [lowerBoundO, lowerBoundO, quantileO, quantileO, quantileO, quantileO, valsOf_map,
    quantileOf_affine a b (1/4) ha _ hv (by norm_num) (by norm_num),
    quantileOf_affine a b (3/4) ha _ hv (by norm_num) (by norm_num)]
  ring

/-- The upper IQR bound commutes with a strictly increasing affine map. -/
theorem upperBoundO_affine {K : Type} [LinearOrderedField K] [FloorRing K] (a b : K)
    (ha : 0 < a) (col : List (Option K)) (hv : valsOf col ≠ []) :
    upperBoundO (col.map (Option.map (fun x => a * x + b))) = a * upperBoundO col + b := by
  rw [upperBoundO, upperBoundO, quantileO, quantileO, quantileO, quantileO, valsOf_map,
    quantileOf_affine a b (1/4) ha _ hv (by norm_num) (by norm_num),
    quantileOf_affine a b (3/4) ha _ hv (by norm_num) (by norm_num)]
  ring

/-- Being outlier-free is preserved by a strictly increasing affine map. -/
theorem colNoOutlier_affine {K : Type} [LinearOrderedField K] [FloorRing K] (a b : K)
    (ha : 0 < a) (col : List (Option K)) (h : colNoOutlier col) :
    colNoOutlier (col.map (Option.map (fun x => a * x + b))) := by
  intro y hy
  rw [valsOf_map] at hy
  obtain ⟨x, hx, rfl⟩ := List.mem_map.mp hy
  have hv : valsOf col ≠ [] := fun he => by rw [he] at hx; cases hx
  rw [lowerBoundO_affine a b ha col hv, upperBoundO_affine a b ha col hv]
  exact ⟨add_le_add_right (mul_le_mul_of_nonneg_left (h x hx).1 ha.le) b,
    add_le_add_right (mul_le_mul_of_nonneg_left (h x hx).2 ha.le) b⟩

/-! ### Standardization lemmas (over `ℝ`) -/

/-- The scaler's divisor is positive. -/
theorem scaleOf_pos (col : List (Option ℝ)) : 0 < scaleOf col := by
  rw [scaleOf]
  by_cases h : Real.sqrt (colVarO col) = 0
  · rw [if_pos h]; norm_num
  · rw [if_neg h]
    exact lt_of_le_of_ne (Real.sqrt_nonneg _) (Ne.symm h)

/-- With nonzero variance the scaler divides by the standard deviation. -/
theorem scaleOf_of_var_ne_zero (col : List (Option ℝ)) (h : colVarO col ≠ 0) :
    scaleOf col = Real.sqrt (colVarO col) := by
  rw [scaleOf, if_neg]
  intro hs
  have h0 : 0 ≤ colVarO col := varOf_nonneg _
  exact h (by
    have := Real.sqrt_eq_zero h0 |>.mp hs
    exact this)

/-- The standardized column is an affine image of the column. -/
theorem standardizeCol_affine_form (col : List (Option ℝ)) :
    standardizeCol col = col.map (Option.map (fun x =>
      (1 / scaleOf col) * x + (-(colMeanO col / scaleOf col)))) := by
  rw [standardizeCol]
  have hf : (fun x => (x - colMeanO col) / scaleOf col) = (fun x =>
      (1 / scaleOf col) * x + (-(colMeanO col / scaleOf col))) := by
    funext x; ring
  rw [hf]

/-- A column of zeros (or an empty column) has mean zero and variance
zero. -/
theorem meanOf_varOf_all_zero {K : Type} [LinearOrderedField K] (l : List K)
    (h : ∀ x ∈ l, x = 0) : meanOf l = 0 ∧ varOf l = 0 := by
  have hsum : l.sum = 0 := List.sum_eq_zero h
  have hmean : meanOf l = 0 := by rw [meanOf, hsum, zero_div]
  refine ⟨hmean, ?_⟩
  rw [varOf, List.sum_eq_zero, zero_div]
  intro y hy
  obtain ⟨x, hx, rfl⟩ := List.mem_map.mp hy
  rw [h x hx, hmean]
  ring

/-- Variance of the empty value list is zero. -/
theorem varOf_nil {K : Type} [LinearOrderedField K] : varOf ([] : List K) = 0 := by
  simp [varOf]

/-- After standardizing a column of nonzero variance, the mean is `0` and
the population variance is `1`. -/
theorem standardizeCol_mean_var (col : List (Option ℝ)) (h : colVarO col ≠ 0) :
    colMeanO (standardizeCol col) = 0 ∧ colVarO (standardizeCol col) = 1 := by
  have hv : valsOf col ≠ [] := by
    intro he
    rw [colVarO, he, varOf_nil] at h
    exact h rfl
  have hvpos : 0 < colVarO col := lt_of_le_of_ne (varOf_nonneg _) (Ne.symm h)
  have hs : scaleOf col = Real.sqrt (colVarO col) := scaleOf_of_var_ne_zero col h
  have hspos : 0 < scaleOf col := scaleOf_pos col
  have hsq : scaleOf col ^ 2 = colVarO col := by
    rw [hs]; exact Real.sq_sqrt (varOf_nonneg _)
  constructor
  · rw [standardizeCol_affine_form, colMeanO, valsOf_map,
      meanOf_affine _ _ _ hv]
    rw [colMeanO]
    field_simp
  · rw [standardizeCol_affine_form, colVarO, valsOf_map,
      varOf_affine _ _ _ hv]
    rw [div_pow, one_pow, ← colVarO, hsq]
    field_simp

/-- Standardizing is the identity on a column with mean `0` and scale `1`. -/
theorem standardizeCol_id_of (col : List (Option ℝ)) (hm : colMeanO col = 0)
    (hs : scaleOf col = 1) : standardizeCol col = col := by
  rw [standardizeCol, hm, hs]
  have hf : (fun x : ℝ => (x - 0) / 1) = fun x => x := by funext x; ring
  rw [hf]
  have ho : (Option.map (fun x : ℝ => x)) = id := funext (fun o => by cases o <;> rfl)
  rw [ho, List.map_id]

/-- After standardizing any column, the mean is `0` and the variance is
`0` or `1`. -/
theorem standardizeCol_stats (col : List (Option ℝ)) :
    colMeanO (standardizeCol col) = 0 ∧
      (colVarO (standardizeCol col) = 0 ∨ colVarO (standardizeCol col) = 1) := by
  by_cases h : colVarO col = 0
  · have hs : scaleOf col = 1 := by
      rw [scaleOf, colVarO] at *
      rw [h, Real.sqrt_zero, if_pos rfl]
    have hall : ∀ y ∈ valsOf (standardizeCol col), y = 0 := by
      intro y hy
      rw [standardizeCol, hs] at hy
      rw [valsOf_map] at hy
      obtain ⟨x, hx, rfl⟩ := List.mem_map.mp hy
      have hnv : valsOf col ≠ [] := fun he => by rw [he] at hx; cases hx
      have := varOf_eq_zero_all_mean (valsOf col) hnv h x hx
      rw [this]
      simp [colMeanO]
    have := meanOf_varOf_all_zero (valsOf (standardizeCol col)) hall
    exact ⟨this.1, Or.inl this.2⟩
  · have := standardizeCol_mean_var col h
    exact ⟨this.1, Or.inr this.2⟩

/-- A standardized column has scale `1`. -/
theorem scaleOf_standardizeCol (col : List (Option ℝ)) :
    scaleOf (standardizeCol col) = 1 := by
  rcases (standardizeCol_stats col).2 with h | h
  · rw [scaleOf, h, Real.sqrt_zero, if_pos rfl]
  · rw [scaleOf, h, Real.sqrt_one, if_neg one_ne_zero]

/-- Standardizing twice is the same as standardizing once. -/
theorem standardizeCol_idem (col : List (Option ℝ)) :
    standardizeCol (standardizeCol col) = standardizeCol col :=
  standardizeCol_id_of _ (standardizeCol_stats col).1 (scaleOf_standardizeCol col)

/-- Standardizing keeps cells present. -/
theorem standardizeCol_noMissing (col : List (Option ℝ))
    (h : ∀ cell ∈ col, cell ≠ none) :
    ∀ cell ∈ standardizeCol col, cell ≠ none := by
  intro cell hcell
  rw [standardizeCol] at hcell
  obtain ⟨c, hc, rfl⟩ := List.mem_map.mp hcell
  cases c with
  | none => exact absurd rfl (h none hc)
  | some v => simp

/-- Standardizing preserves outlier-freeness (it is a strictly increasing
affine map of the column). -/
theorem standardizeCol_noOutlier (col : List (Option ℝ)) (h : colNoOutlier col) :
    colNoOutlier (standardizeCol col) := by
  rw [standardizeCol_affine_form]
  exact colNoOutlier_affine _ _ (one_div_pos.mpr (scaleOf_pos col)) col h

/-! ### Pipeline-level lemmas -/

/-- A successful pipeline run determines the output — standardized cleaned
numeric columns and mode-filled categorical columns — and forces the
imputation of line 19 to have succeeded on a non-degenerate numeric
sub-table. -/
theorem pipeline_ok_cases (df out : DataFrame ℝ)
    (h : data_preprocessing_pipeline df = Except.ok out) :
    ∃ cats, handle_missing_values df.numeric = Except.ok (knnImputeTable df.numeric) ∧
      df.numeric ≠ [] ∧ (∀ c ∈ df.numeric, valsOf c.2 ≠ []) ∧
      catFillStep df.cat = some cats ∧
      out = ⟨(preScaleNumeric df).map (fun c => (c.1, standardizeCol c.2)), cats⟩ := by
  rw [data_preprocessing_pipeline] at h
  cases hm : handle_missing_values df.numeric with
  | error e => rw [hm] at h; cases h
  | ok nums =>
    rw [hm] at h
    obtain ⟨hnums, hne, hv⟩ := handle_missing_values_ok_elim df.numeric nums hm
    subst hnums
    cases hcat : catFillStep df.cat with
    | none => rw [hcat] at h; cases h
    | some cats =>
      rw [hcat] at h
      injection h with h2
      refine ⟨cats, rfl, hne, hv, rfl, ?_⟩
      rw [← h2, preScaleNumeric]

/-- On a dataset whose numeric columns have no missing cell and no
out-of-bound value, imputation and outlier replacement are both the
identity, so the scaler sees the original numeric columns. -/
theorem preScaleNumeric_id (df : DataFrame ℝ)
    (h1 : ∀ c ∈ df.numeric, ∀ cell ∈ c.2, cell ≠ none)
    (h2 : ∀ c ∈ df.numeric, colNoOutlier c.2) :
    preScaleNumeric df = df.numeric := by
  rw [preScaleNumeric, knnImputeTable_id df.numeric h1]
  have hmap : ∀ c ∈ df.numeric, (c.1, replaceOutliersIQR c.2) = c := by
    intro c hc
    rw [replaceOutliersIQR_id c.2 (h2 c hc)]
  rw [List.map_congr_left hmap, List.map_id']

/-! ### Concrete evaluation of the pipeline on a tiny clean dataset -/

/-- IQR bounds of the one-value column `[0]` are `[0, 0]`. -/
theorem zeroCol_bounds :
    lowerBoundO ([some 0] : List (Option ℝ)) = 0 ∧
      upperBoundO ([some 0] : List (Option ℝ)) = 0 := by
  have hv0 : valsOf ([some 0] : List (Option ℝ)) = [0] := rfl
  have hq : ∀ q : ℝ, 0 ≤ q → q ≤ 1 → quantileOf ([0] : List ℝ) q = 0 := by
    intro q hq0 hq1
    refine quantileOf_eval [0] [0] q 0 0 (by simp [List.insertionSort, List.orderedInsert]) ?_ ?_
    · norm_num
    · norm_num [List.getD]
  constructor
  · rw [lowerBoundO, quantileO, quantileO, hv0, hq (1/4) (by norm_num) (by norm_num),
      hq (3/4) (by norm_num) (by norm_num)]
    norm_num
  · rw [upperBoundO, quantileO, quantileO, hv0, hq (1/4) (by norm_num) (by norm_num),
      hq (3/4) (by norm_num) (by norm_num)]
    norm_num

/-- The one-value column `[0]` is outlier-free. -/
theorem zeroCol_noOutlier : colNoOutlier ([some 0] : List (Option ℝ)) := by
  intro x hx
  have hv0 : valsOf ([some 0] : List (Option ℝ)) = [0] := rfl
  rw [hv0] at hx
  simp only [List.mem_singleton] at hx
  subst hx
  rw [zeroCol_bounds.1, zeroCol_bounds.2]
  exact ⟨le_refl 0, le_refl 0⟩

/-- Mean and variance of the one-value column `[0]`. -/
theorem zeroCol_mean_var :
    colMeanO ([some 0] : List (Option ℝ)) = 0 ∧ colVarO ([some 0] : List (Option ℝ)) = 0 := by
  constructor
  · norm_num [colMeanO, meanOf, valsOf, List.filterMap_cons]
  · norm_num [colVarO, varOf, meanOf, valsOf, List.filterMap_cons]

/-- Standardizing the one-value column `[0]` keeps it `[0]`. -/
theorem zeroCol_standardize :
    standardizeCol ([some 0] : List (Option ℝ)) = [some 0] := by
  have hs : scaleOf ([some 0] : List (Option ℝ)) = 1 := by
    rw [scaleOf, zeroCol_mean_var.2, Real.sqrt_zero, if_pos rfl]
  rw [standardizeCol, zeroCol_mean_var.1, hs]
  norm_num

/-- The pipeline maps the tiny clean dataset to itself. -/
theorem pipeline_tiny_fixed_point :
    data_preprocessing_pipeline ⟨[("x", [some 0])], [("c", [some "a"])]⟩ =
      Except.ok ⟨[("x", [some 0])], [("c", [some "a"])]⟩ := by
  have hcat : catFillStep [("c", [some "a"])] = some [("c", [some "a"])] := by decide
  have hm0 : handle_missing_values ([("x", [some 0])] : List (String × List (Option ℝ))) =
      Except.ok [("x", [some 0])] :=
    handle_missing_values_ok _ (by simp) (by simp)
      (by
        intro c hc
        simp only [List.mem_singleton] at hc
        subst hc
        simp [valsOf])
  simp only [data_preprocessing_pipeline, hm0, hcat, List.map_cons, List.map_nil,
    replaceOutliersIQR_id _ zeroCol_noOutlier, zeroCol_standardize]

/-- Variance of the column `[1, 3]` is `1`. -/
theorem pairCol_var : colVarO ([some 1, some 3] : List (Option ℝ)) = 1 := by
  norm_num [colVarO, varOf, meanOf, valsOf, List.filterMap_cons]

/-- C4: on a dataset whose numeric columns have no missing cell and no
value outside their IQR bounds, the imputation stage and the
outlier-replacement stage are both the identity on the numeric sub-table
(over any ordered field), and in the full pipeline only the normalization
stage changes the numeric values. -/
theorem C4_clean_numeric_stages_identity :
    (∀ (K : Type) [inst : LinearOrderedField K] [inst2 : FloorRing K]
      (cols : List (String × List (Option K))),
      (∀ c ∈ cols, ∀ cell ∈ c.2, cell ≠ none) →
      (∀ c ∈ cols, colNoOutlier c.2) →
      knnImputeTable cols = cols ∧
        (cols ≠ [] → (∀ c ∈ cols, c.2 ≠ []) → handle_missing_values cols = Except.ok cols) ∧
        cols.map (fun c => (c.1, replaceOutliersIQR c.2)) = cols)
    ∧ (∀ (df out : DataFrame ℝ),
      (∀ c ∈ df.numeric, ∀ cell ∈ c.2, cell ≠ none) →
      (∀ c ∈ df.numeric, colNoOutlier c.2) →
      data_preprocessing_pipeline df = Except.ok out →
      out.numeric = df.numeric.map (fun c => (c.1, standardizeCol c.2))) := by
  constructor
  · intro K inst inst2 cols h1 h2
    refine ⟨knnImputeTable_id cols h1, ?_, ?_⟩
    · intro hne hcols
      refine handle_missing_values_ok cols h1 hne ?_
      intro c hc hcv
      obtain ⟨cell, hcell, rest, hrest⟩ : ∃ cell hcell rest, c.2 = cell :: rest := by
        cases hc2 : c.2 with
        | nil => exact absurd hc2 (hcols c hc)
        | cons cell rest => exact ⟨cell, hc2 ▸ List.mem_cons_self cell rest, rest, rfl⟩
      cases cell with
      | none => exact h1 c hc none hcell rfl
      | some v =>
        have : v ∈ valsOf c.2 := mem_valsOf hcell
        rw [hcv] at this
        cases this
    have hmap : ∀ c ∈ cols, (c.1, replaceOutliersIQR c.2) = c := by
      intro c hc
      rw [replaceOutliersIQR_id c.2 (h2 c hc)]
    rw [List.map_congr_left hmap, List.map_id']
  · intro df out h1 h2 hrun
    obtain ⟨cats, _hhm, _hne, _hv, _hcat, hout⟩ := pipeline_ok_cases df out hrun
    rw [hout, preScaleNumeric_id df h1 h2]

/-- Witness for C4: the ℚ column `[1, 2, 3]` (no missing cell, bounds
`[0, 4]`) is untouched by both stages, and on the tiny clean real dataset
the pipeline output is the standardized input. -/
theorem C4_clean_numeric_stages_identity_witness :
    (knnImputeTable ([("x", [some 1, some 2, some 3])] :
        List (String × List (Option ℚ))) = [("x", [some 1, some 2, some 3])] ∧
      handle_missing_values ([("x", [some 1, some 2, some 3])] :
        List (String × List (Option ℚ))) = Except.ok [("x", [some 1, some 2, some 3])] ∧
      ([("x", [some 1, some 2, some 3])] : List (String × List (Option ℚ))).map
        (fun c => (c.1, replaceOutliersIQR c.2)) = [("x", [some 1, some 2, some 3])])
    ∧ (DataFrame.mk [("x", [some 0])] [("c", [some "a"])] : DataFrame ℝ).numeric =
        ([("x", [some 0])] : List (String × List (Option ℝ))).map
          (fun c => (c.1, standardizeCol c.2)) := by
  have hq1 : quantileOf ([1, 2, 3] : List ℚ) (1/4) = 3/2 :=
    quantileOf_eval [1,2,3] [1,2,3] (1/4) (3/2) 0
      (by norm_num [List.insertionSort, List.orderedInsert]) (by norm_num)
      (by norm_num [List.getD])
  have hq3 : quantileOf ([1, 2, 3] : List ℚ) (3/4) = 5/2 :=
    quantileOf_eval [1,2,3] [1,2,3] (3/4) (5/2) 1
      (by norm_num [List.insertionSort, List.orderedInsert]) (by norm_num)
      (by norm_num [List.getD])
  have hv : valsOf ([some 1, some 2, some 3] : List (Option ℚ)) = [1, 2, 3] := rfl
  have hno : colNoOutlier ([some 1, some 2, some 3] : List (Option ℚ)) := by
    intro x hx
    rw [hv] at hx
    have hlb : lowerBoundO ([some 1, some 2, some 3] : List (Option ℚ)) = 0 := by
      rw [lowerBoundO, quantileO, quantileO, hv, hq1, hq3]; norm_num
    have hub : upperBoundO ([some 1, some 2, some 3] : List (Option ℚ)) = 4 := by
      rw [upperBoundO, quantileO, quantileO, hv, hq1, hq3]; norm_num
    rw [hlb, hub]
    have hx3 : x = 1 ∨ x = 2 ∨ x = 3 := by simpa using hx
    rcases hx3 with rfl | rfl | rfl <;> norm_num
  have hcall := C4_clean_numeric_stages_identity.1 ℚ [("x", [some 1, some 2, some 3])]
      (by simp)
      (by
        intro c hc
        simp only [List.mem_singleton] at hc
        subst hc
        exact hno)
  refine ⟨⟨hcall.1, hcall.2.1 (by simp) (by simp), hcall.2.2⟩, ?_⟩
  · exact C4_clean_numeric_stages_identity.2
      ⟨[("x", [some 0])], [("c", [some "a"])]⟩ ⟨[("x", [some 0])], [("c", [some "a"])]⟩
      (by simp)
      (by
        intro c hc
        simp only [List.mem_singleton] at hc
        subst hc
        exact zeroCol_noOutlier)
      pipeline_tiny_fixed_point

/-- C5: after a successful pipeline run the numeric columns of the output
are exactly the standardized cleaned columns, and standardizing any
column of nonzero variance yields mean `0` and standard deviation
(the square root of the population variance) exactly `1`. -/
theorem C5_standardized_mean_zero_std_one :
    (∀ (df out : DataFrame ℝ), data_preprocessing_pipeline df = Except.ok out →
      out.numeric = (preScaleNumeric df).map (fun c => (c.1, standardizeCol c.2)))
    ∧ (∀ (col : List (Option ℝ)), colVarO col ≠ 0 →
      colMeanO (standardizeCol col) = 0 ∧
        Real.sqrt (colVarO (standardizeCol col)) = 1) := by
  constructor
  · intro df out h
    obtain ⟨cats, _hhm, _hne, _hv, _hcat, hout⟩ := pipeline_ok_cases df out h
    rw [hout]
  · intro col h
    obtain ⟨hm, hv⟩ := standardizeCol_mean_var col h
    exact ⟨hm, by rw [hv]; exact Real.sqrt_one⟩

/-- Witness for C5: the pipeline equation at the tiny clean dataset, and
mean `0` / standard deviation `1` after standardizing the column `[1, 3]`
of variance `1`. -/
theorem C5_standardized_mean_zero_std_one_witness :
    (DataFrame.mk [("x", [some 0])] [("c", [some "a"])] : DataFrame ℝ).numeric =
      (preScaleNumeric ⟨[("x", [some 0])], [("c", [some "a"])]⟩).map
        (fun c => (c.1, standardizeCol c.2)) ∧
    (colMeanO (standardizeCol ([some 1, some 3] : List (Option ℝ))) = 0 ∧
      Real.sqrt (colVarO (standardizeCol ([some 1, some 3] : List (Option ℝ)))) = 1) :=
  ⟨C5_standardized_mean_zero_std_one.1 ⟨[("x", [some 0])], [("c", [some "a"])]⟩
      ⟨[("x", [some 0])], [("c", [some "a"])]⟩ pipeline_tiny_fixed_point,
   C5_standardized_mean_zero_std_one.2 [some 1, some 3] (by rw [pairCol_var]; norm_num)⟩

/-- C6: the pipeline is idempotent on already-clean input — if the input
has no missing values and no out-of-bound numeric values and the first
run succeeds, then running the pipeline again on its own output (with the
scaler re-fitted on the standardized values) reproduces that output
exactly. -/
theorem C6_pipeline_idempotent_on_clean (df out : DataFrame ℝ)
    (h1 : ∀ c ∈ df.numeric, ∀ cell ∈ c.2, cell ≠ none)
    (h2 : ∀ c ∈ df.numeric, colNoOutlier c.2)
    (h3 : ∀ c ∈ df.cat, ∀ cell ∈ c.2, cell ≠ none)
    (hrun : data_preprocessing_pipeline df = Except.ok out) :
    data_preprocessing_pipeline out = Except.ok out := by
  obtain ⟨cats, _hhm, hne, hv, hcat, hout⟩ := pipeline_ok_cases df out hrun
  have hcats : cats = df.cat := catFillStep_id df.cat h3 cats hcat
  subst hcats
  rw [preScaleNumeric_id df h1 h2] at hout
  have hnum : out.numeric = df.numeric.map (fun c => (c.1, standardizeCol c.2)) := by rw [hout]
  have hcato : out.cat = df.cat := by rw [hout]
  have hnm2 : ∀ c ∈ out.numeric, ∀ cell ∈ c.2, cell ≠ none := by
    rw [hnum]
    intro c hc
    obtain ⟨c0, hc0, rfl⟩ := List.mem_map.mp hc
    exact standardizeCol_noMissing c0.2 (h1 c0 hc0)
  have hno2 : ∀ c ∈ out.numeric, colNoOutlier c.2 := by
    rw [hnum]
    intro c hc
    obtain ⟨c0, hc0, rfl⟩ := List.mem_map.mp hc
    exact standardizeCol_noOutlier c0.2 (h2 c0 hc0)
  have hne2 : out.numeric ≠ [] := by
    rw [hnum]
    intro he
    exact hne (List.map_eq_nil_iff.mp he)
  have hv2 : ∀ c ∈ out.numeric, valsOf c.2 ≠ [] := by
    rw [hnum]
    intro c hc
    obtain ⟨c0, hc0, rfl⟩ := List.mem_map.mp hc
    rw [standardizeCol_affine_form, valsOf_map]
    intro he
    exact hv c0 hc0 (List.map_eq_nil_iff.mp he)
  have hmv2 : handle_missing_values out.numeric = Except.ok out.numeric :=
    handle_missing_values_ok out.numeric hnm2 hne2 hv2
  have hcat2 : catFillStep out.cat = some out.cat := by rw [hcato]; exact hcat
  have hro2 : out.numeric.map (fun c => (c.1, replaceOutliersIQR c.2)) = out.numeric := by
    have hmap : ∀ c ∈ out.numeric, (c.1, replaceOutliersIQR c.2) = c := by
      intro c hc
      rw [replaceOutliersIQR_id c.2 (hno2 c hc)]
    rw [List.map_congr_left hmap, List.map_id']
  have hstd2 : out.numeric.map (fun c => (c.1, standardizeCol c.2)) = out.numeric := by
    rw [hnum, List.map_map]
    apply List.map_congr_left
    intro c _hc
    simp [Function.comp_apply, standardizeCol_idem]
  simp only [data_preprocessing_pipeline, hmv2, hcat2, hro2, hstd2]

/-- Witness for C6: the tiny clean dataset is a fixed point, so the
second run reproduces the first run's output. -/
theorem C6_pipeline_idempotent_on_clean_witness :
    data_preprocessing_pipeline ⟨[("x", [some 0])], [("c", [some "a"])]⟩ =
      Except.ok ⟨[("x", [some 0])], [("c", [some "a"])]⟩ :=
  C6_pipeline_idempotent_on_clean ⟨[("x", [some 0])], [("c", [some "a"])]⟩
    ⟨[("x", [some 0])], [("c", [some "a"])]⟩
    (by simp)
    (by
      intro c hc
      simp only [List.mem_singleton] at hc
      subst hc
      exact zeroCol_noOutlier)
    (by simp)
    pipeline_tiny_fixed_point
